import Mathlib

/-!
Shallow embedding of the control-surface configuration registry and the
track telemetry client of the `dolphin-reaper` repository
(package `scripts`: the reaper.ini registry functions and the web-remote
track client), together with proofs about the claims C1-C10.

Strings are embedded as `List Char`; documents as ordered lists of lines.
Go standard-library helpers (`strings.TrimSpace`, `strings.Fields`,
`strings.SplitN`, `strings.Split`, `strings.Join`, `strconv.Atoi`,
`strconv.ParseFloat`, `fmt.Sprintf` with %d) are modelled below over
`List Char`.  float64 values are idealised as exact rationals extended
with the IEEE special values NaN and +-Inf (`GoFloatVal`); rounding,
overflow-to-infinity during decimal conversion, hexadecimal float
literals and digit-group underscores are outside the model.
-/

namespace DR

/-- Strings, embedded as lists of characters. -/
abbrev Str := List Char

/-- Coerce a Lean string literal into the embedding. -/
def str (s : String) : Str := s.toList

/-- ASCII whitespace, as recognised by `unicode.IsSpace` on the characters
that actually occur in reaper.ini lines. -/
def isSpace (c : Char) : Bool :=
  c = ' ' || c = '\t' || c = '\n' || c = '\x0b' || c = '\x0c' || c = '\r'

/-- Negation of `isSpace`, used as a predicate for `Fields`. -/
def notSpace (c : Char) : Bool := !isSpace c

/-- Model of `strings.TrimSpace`: drop leading and trailing whitespace. -/
def trimSpace (s : Str) : Str :=
  ((s.dropWhile isSpace).reverse.dropWhile isSpace).reverse

/-- Model of `strings.HasPrefix`. -/
def goHasPfx (p s : Str) : Bool := p.isPrefixOf s

/-- Model of `strings.TrimPrefix`. -/
def goTrimPfx (p s : Str) : Str := if p.isPrefixOf s then s.drop p.length else s

/-- Split at the first occurrence of `sep`; `none` when `sep` is absent.
`strings.SplitN s sep 2` returns two parts exactly when this is `some`. -/
def splitOnce (sep : Char) : Str → Option (Str × Str)
  | [] => none
  | c :: cs =>
    if c = sep then some ([], cs)
    else
      match splitOnce sep cs with
      | none => none
      | some (a, b) => some (c :: a, b)

/-- Worker for `strings.Fields`: `cur` is the current token, reversed. -/
def goFieldsGo (cur : Str) : Str → List Str
  | [] => if cur = [] then [] else [cur.reverse]
  | c :: cs =>
    if isSpace c then
      if cur = [] then goFieldsGo [] cs else cur.reverse :: goFieldsGo [] cs
    else goFieldsGo (c :: cur) cs

/-- Model of `strings.Fields`: split around runs of whitespace, no empty tokens. -/
def goFields (s : Str) : List Str := goFieldsGo [] s

/-- Model of `strings.Join parts " "`. -/
def joinSpace : List Str → Str
  | [] => []
  | [t] => t
  | t :: ts => t ++ ' ' :: joinSpace ts

/-- Model of `strings.Split s sep` for a one-character separator: full split,
empty pieces kept. -/
def splitChar (sep : Char) : Str → List Str
  | [] => [[]]
  | c :: cs =>
    if c = sep then [] :: splitChar sep cs
    else
      match splitChar sep cs with
      | [] => [[c]]
      | t :: ts => (c :: t) :: ts

/-- Decimal digit value of a character. -/
def digitVal (c : Char) : Option Nat :=
  if '0' ≤ c ∧ c ≤ '9' then some (c.toNat - 48) else none

/-- Accumulating decimal reader; `none` on the first non-digit. -/
def digitsToNatAux (acc : Nat) : Str → Option Nat
  | [] => some acc
  | c :: cs =>
    match digitVal c with
    | some d => digitsToNatAux (acc * 10 + d) cs
    | none => none

/-- All-digit string to `Nat`; `none` when empty or on a non-digit. -/
def digitsToNat : Str → Option Nat
  | [] => none
  | s => digitsToNatAux 0 s

/-- Model of `strconv.Atoi`: optional sign then digits (overflow is out of the
model; the ids and ports involved are small). -/
def atoi (s : Str) : Option Int :=
  match s with
  | '+' :: rest => (digitsToNat rest).map Int.ofNat
  | '-' :: rest => (digitsToNat rest).map (fun n => -(n : Int))
  | _ => (digitsToNat s).map Int.ofNat

/-- The character of a decimal digit. -/
def digitChar (n : Nat) : Char := Char.ofNat (48 + n)

/-- Fuelled worker for decimal rendering (`fuel` bounds the digit count;
any `fuel > n` is enough). -/
def natDigitsAux : Nat → Nat → Str
  | 0, _ => []
  | fuel + 1, n =>
    if n < 10 then [digitChar n]
    else natDigitsAux fuel (n / 10) ++ [digitChar (n % 10)]

/-- Decimal rendering of a natural number, as `fmt.Sprintf "%d"`. -/
def natDigits (n : Nat) : Str := natDigitsAux (n + 1) n

/-- Decimal rendering of an integer, as `fmt.Sprintf "%d"`. -/
def intToStr (n : Int) : Str :=
  if n < 0 then '-' :: natDigits (-n).toNat else natDigits n.toNat

/-! ## The control-surface registry (config.go)

`GetWebRemoteConfig`, `SetWebRemoteEnabled` and `SetWebRemotePort` each
re-read reaper.ini line by line; the document is embedded as the list of
its lines, and the platform path resolution / file I/O around it is not
modelled. -/

/-- The result of `GetWebRemoteConfig`. -/
structure WebRemoteConfig where
  port : Int
  enabled : Bool
  csurfID : Int
  rawConfig : Str
deriving DecidableEq

/-- The body of `GetWebRemoteConfig`'s scanning loop for one line:
`some cfg` when the loop returns at this line, `none` when it
`continue`s. -/
def tryResolve (l : Str) : Option WebRemoteConfig :=
  let trimmed := trimSpace l
  if goHasPfx (str "csurf_") trimmed then
    match splitOnce '=' trimmed with
    | none => none
    | some (csurfKey, csurfValue) =>
      if goHasPfx (str "HTTP ") csurfValue || goHasPfx (str "WEBR ") csurfValue then
        match atoi (goTrimPfx (str "csurf_") csurfKey) with
        | none => none
        | some csurfID =>
          let fields := goFields csurfValue
          if fields.length < 3 then none
          else if goHasPfx (str "HTTP ") csurfValue then
            match atoi (fields.getD 2 []) with
            | none => none
            | some port =>
              some ⟨port, (fields.getD 1 [] == str "1") || (fields.getD 1 [] == str "true"),
                csurfID, csurfValue⟩
          else
            match atoi (fields.getLast?.getD []) with
            | none => none
            | some port =>
              some ⟨port, (fields.getD 1 [] == str "1") || (fields.getD 1 [] == str "true"),
                csurfID, csurfValue⟩
      else none
  else none

/-- Model of `GetWebRemoteConfig` over the lines of reaper.ini: first line on
which the loop body returns; `none` models the "not found" error. -/
def getWebRemoteConfig : List Str → Option WebRemoteConfig
  | [] => none
  | l :: ls =>
    match tryResolve l with
    | some cfg => some cfg
    | none => getWebRemoteConfig ls

/-- Model of `GetWebRemotePort`: the port of the resolved configuration. -/
def getWebRemotePortDoc (doc : List Str) : Option Int :=
  (getWebRemoteConfig doc).map WebRemoteConfig.port

/-- The body of `SetWebRemoteEnabled`'s loop for one line: the rewritten
line when this line is modified, `none` when it is passed through. -/
def tryToggle (flag : Str) (l : Str) : Option Str :=
  let trimmed := trimSpace l
  if goHasPfx (str "csurf_") trimmed then
    match splitOnce '=' trimmed with
    | none => none
    | some (csurfKey, csurfValue) =>
      if goHasPfx (str "HTTP ") csurfValue || goHasPfx (str "WEBR ") csurfValue then
        let fields := goFields csurfValue
        if fields.length ≥ 2 then
          some (csurfKey ++ '=' :: joinSpace (fields.set 1 flag))
        else none
      else none
  else none

/-- The scan of `SetWebRemoteEnabled`: rewrite the first line the loop
body modifies, keep everything else; `none` when nothing was modified. -/
def sweGo (flag : Str) : List Str → Option (List Str)
  | [] => none
  | l :: ls =>
    match tryToggle flag l with
    | some l' => some (l' :: ls)
    | none =>
      match sweGo flag ls with
      | some ls' => some (l :: ls')
      | none => none

/-- Model of `SetWebRemoteEnabled` over the lines of reaper.ini; `none` models the
"web remote control surface not found" error. -/
def setWebRemoteEnabled (enabled : Bool) (lines : List Str) : Option (List Str) :=
  sweGo (if enabled then str "1" else str "0") lines

/-- Whether a line is a `csurf_`-prefixed `key=value` line whose value
opens with `HTTP ` or `WEBR ` — the condition common to the scanning
loops of `GetWebRemoteConfig` and `SetWebRemoteEnabled`. -/
def isWebCsurfLine (l : Str) : Bool :=
  goHasPfx (str "csurf_") (trimSpace l) &&
    match splitOnce '=' (trimSpace l) with
    | none => false
    | some (_, v) => goHasPfx (str "HTTP ") v || goHasPfx (str "WEBR ") v

/-! ### `SetWebRemotePort` -/

/-- The `csurf_N` id of a line, when its trimmed form is a `key=value`
line whose key is `csurf_` followed by an integer (the extraction inside
`SetWebRemotePort`'s scanning loop). -/
def csurfIdOf (l : Str) : Option Int :=
  let trimmed := trimSpace l
  if goHasPfx (str "csurf_") trimmed then
    match splitOnce '=' trimmed with
    | none => none
    | some (csurfKey, _) => atoi (goTrimPfx (str "csurf_") csurfKey)
  else none

/-- Whether a line is the `csurf_cnt=` companion directive. -/
def isCnt (l : Str) : Bool := goHasPfx (str "csurf_cnt=") (trimSpace l)

/-- State of `SetWebRemotePort`'s scanning loop: the highest id seen
(`-1` initially), the index of the last `csurf_cnt=` line, and the index
just after the last `csurf_N` line. -/
structure SwpScan where
  maxID : Int
  cntIdx : Option Nat
  insertIdx : Option Nat
deriving DecidableEq

/-- One iteration of `SetWebRemotePort`'s scanning loop at line index `i`. -/
def swpScanLine (i : Nat) (st : SwpScan) (l : Str) : SwpScan :=
  let st1 :=
    match csurfIdOf l with
    | some id =>
      { st with
        maxID := if id > st.maxID then id else st.maxID
        insertIdx := some (i + 1) }
    | none => st
  if isCnt l then { st1 with cntIdx := some i } else st1

/-- Scanning loop of `SetWebRemotePort` from line index `i` onward. -/
def swpScanFrom (i : Nat) (st : SwpScan) : List Str → SwpScan
  | [] => st
  | l :: ls => swpScanFrom (i + 1) (swpScanLine i st l) ls

/-- The whole scan of `SetWebRemotePort`. -/
def swpScan (lines : List Str) : SwpScan := swpScanFrom 0 ⟨-1, none, none⟩ lines

/-- The new control-surface line `fmt.Sprintf` builds:
`csurf_%d=HTTP 1 %d '' 'index.html' 0 ''`. -/
def mkCsurfLine (id port : Int) : Str :=
  str "csurf_" ++ intToStr id ++ str "=HTTP 1 " ++ intToStr port
    ++ str " '' 'index.html' 0 ''"

/-- The companion directive line `fmt.Sprintf` builds: `csurf_cnt=%d`. -/
def mkCntLine (id : Int) : Str := str "csurf_cnt=" ++ intToStr id

/-- Insert a line before index `i` (`lines[:i] ++ [x] ++ lines[i:]`). -/
def insertLine (i : Nat) (x : Str) (lines : List Str) : List Str :=
  lines.take i ++ x :: lines.drop i

/-- Model of `SetWebRemotePort newPort` over the lines of reaper.ini: insert a
fresh SchemaA entry with id `maxID + 1` after the last `csurf_N` line
(or at the end), then rewrite the `csurf_cnt=` directive to the new id
(or append it). -/
def setWebRemotePort (newPort : Int) (lines : List Str) : List Str :=
  let st := swpScan lines
  let newCSurfID := st.maxID + 1
  let newCSurfLine := mkCsurfLine newCSurfID newPort
  let step :=
    match st.insertIdx with
    | none => (lines ++ [newCSurfLine], st.cntIdx)
    | some i =>
      (insertLine i newCSurfLine lines,
        match st.cntIdx with
        | some c => some (if i ≤ c then c + 1 else c)
        | none => none)
  match step.2 with
  | some c => step.1.set c (mkCntLine newCSurfID)
  | none => step.1 ++ [mkCntLine newCSurfID]

/-! ## The track telemetry client (webremote.go)

float64 values are idealised: a parsed float is either an exact rational
or one of the IEEE special values NaN and signed infinity. -/

/-- An idealised float64 as produced by `strconv.ParseFloat`. -/
inductive GoFloatVal where
  | nan : GoFloatVal
  | inf (neg : Bool) : GoFloatVal
  | finite (q : ℚ) : GoFloatVal
deriving DecidableEq

/-- An idealised float64 as stored in `Track.Volume`: the result of
`20 * math.Log10 m` or one of the constants `0`, `-150`. -/
inductive VolVal where
  | nan : VolVal
  | posInf : VolVal
  | negInf : VolVal
  | real (x : ℝ) : VolVal

/-- The comparison `volMult > 0` on an idealised float64 (false for NaN). -/
def goPos : GoFloatVal → Bool
  | .nan => false
  | .inf neg => !neg
  | .finite q => decide (0 < q)

/-- Value of `20 * math.Log10 m`: NaN for NaN or negative arguments, `-Inf` at
zero, `+Inf` at `+Inf`, and `20 * log10 m` on positive finite input. -/
noncomputable def goVol20Log10 : GoFloatVal → VolVal
  | .nan => .nan
  | .inf true => .nan
  | .inf false => .posInf
  | .finite q =>
    if q < 0 then .nan
    else if q = 0 then .negInf
    else .real (20 * Real.logb 10 (q : ℝ))

/-- Lower-case an ASCII letter. -/
def lowerChar (c : Char) : Char :=
  if 65 ≤ c.toNat ∧ c.toNat ≤ 90 then Char.ofNat (c.toNat + 32) else c

/-- ASCII lower-casing of a string. -/
def lowerStr (s : Str) : Str := s.map lowerChar

/-- Numeric value of an all-digit string (helper for `parseDec`). -/
def digitsNatVal (s : Str) : Nat := s.foldl (fun a c => a * 10 + (digitVal c).getD 0) 0

/-- Is the character a decimal digit? -/
def isDigitCh (c : Char) : Bool := (digitVal c).isSome

/-- Go's decimal float syntax: `digits [. digits] [e|E [sign] digits]`
with at least one mantissa digit, evaluated exactly over `ℚ` (the value
is `(intPart.fracPart) * 10 ^ exponent`, assembled with `mkRat` so that
the definition evaluates inside the kernel). -/
def parseDec (s : Str) : Option ℚ :=
  let intPart := s.takeWhile isDigitCh
  let rest1 := s.dropWhile isDigitCh
  let fracPart :=
    match rest1 with
    | '.' :: r => r.takeWhile isDigitCh
    | _ => []
  let rest2 :=
    match rest1 with
    | '.' :: r => r.dropWhile isDigitCh
    | _ => rest1
  if intPart.length + fracPart.length = 0 then none
  else
    let mantNum : Int :=
      (digitsNatVal intPart * 10 ^ fracPart.length + digitsNatVal fracPart : ℕ)
    let mantDen : Nat := 10 ^ fracPart.length
    match rest2 with
    | [] => some (mkRat mantNum mantDen)
    | e :: r =>
      if e = 'e' ∨ e = 'E' then
        match atoi r with
        | some k =>
          some (if 0 ≤ k then mkRat (mantNum * ((10 ^ k.toNat : ℕ) : ℤ)) mantDen
            else mkRat mantNum (mantDen * 10 ^ (-k).toNat))
        | none => none
      else none

/-- Model of `strconv.ParseFloat s 64`, idealised: the special literals `NaN`,
`[+-]Inf`, `[+-]Infinity` (case-insensitive), otherwise an exact decimal
(hex floats, underscores and overflow-to-range-error are out of the
model). -/
def parseGoFloat (s : Str) : Option GoFloatVal :=
  if lowerStr s = str "nan" then some .nan
  else
    let pair :=
      match s with
      | '+' :: r => (false, r)
      | '-' :: r => (true, r)
      | _ => (false, s)
    if lowerStr pair.2 = str "inf" ∨ lowerStr pair.2 = str "infinity" then
      some (.inf pair.1)
    else (parseDec pair.2).map (fun q => .finite (if pair.1 then -q else q))

/-- A REAPER track as decoded by `parseTrackData` (the `Selected` and
`FXEnabled` fields are never set by the parser and stay false). -/
structure Track where
  index : Int
  name : Str
  volume : VolVal
  pan : GoFloatVal
  mute : Bool
  solo : Bool
  recArm : Bool
  selected : Bool
  fxEnabled : Bool

/-- The body of `parseTrackData`'s loop for one line: `none` when the
line is skipped (`continue`), `some` the decoded track otherwise. -/
noncomputable def parseLine (l : Str) : Option Track :=
  let line := trimSpace l
  if line = [] then none
  else
    let fields := splitChar '\t' line
    if fields.length < 13 then none
    else if fields.getD 0 [] ≠ str "TRACK" then none
    else
      some
        { index := (atoi (fields.getD 1 [])).getD 0
          name := fields.getD 2 []
          volume :=
            match parseGoFloat (fields.getD 4 []) with
            | some volMult =>
              if goPos volMult then goVol20Log10 volMult else .real (-150)
            | none => .real 0
          pan := (parseGoFloat (fields.getD 5 [])).getD (.finite 0)
          mute := fields.getD 10 [] == str "1"
          solo := fields.getD 11 [] == str "1" || fields.getD 11 [] == str "2"
          recArm := fields.getD 12 [] == str "1"
          selected := false
          fxEnabled := false }

/-- The loop of `parseTrackData` over the split lines. -/
noncomputable def processLines : List Str → List Track
  | [] => []
  | l :: ls =>
    match parseLine l with
    | some t => t :: processLines ls
    | none => processLines ls

/-- Model of `parseTrackData`: split the trimmed body on newlines and decode each
line; the Go function's error result is always nil, modelled by always
returning `Except.ok`. -/
noncomputable def parseTrackData (data : Str) : Except Str (List Track) :=
  .ok (processLines (splitChar '\n' (trimSpace data)))

/-- The distinct failure modes of `GetTracks`. -/
inductive FetchError where
  | connectionError : FetchError
  | protocolError (status : Int) : FetchError
  | readError : FetchError
  | parseError : FetchError

/-- The outcome of the HTTP GET to `/_/TRACK`, as seen by `GetTracks`:
transport failure, or a status code with (a possibly unreadable) body. -/
inductive HTTPResult where
  | connFail : HTTPResult
  | readFail (status : Int) : HTTPResult
  | success (status : Int) (body : Str) : HTTPResult

/-- Model of `GetTracks`: map transport failure to a connection error, any status
other than 200 (`http.StatusOK`) to a protocol error carrying the
status, a body-read failure to a read error, and otherwise parse. -/
noncomputable def getTracks (resp : HTTPResult) : Except FetchError (List Track) :=
  match resp with
  | .connFail => .error .connectionError
  | .readFail status =>
    if status ≠ 200 then .error (.protocolError status) else .error .readError
  | .success status body =>
    if status ≠ 200 then .error (.protocolError status)
    else
      match parseTrackData body with
      | .ok tracks => .ok tracks
      | .error _ => .error .parseError

/-- The web-remote client: only its base URL matters to the model. -/
structure WebRemoteClient where
  baseURL : Str
deriving DecidableEq

/-- Model of `NewWebRemoteClient port` against a given reaper.ini document: a
zero port is auto-detected via `GetWebRemotePort`, a failed detection is
returned as the error (`none`), any non-zero port is used as given. -/
def newWebRemoteClient (port : Int) (doc : List Str) : Option WebRemoteClient :=
  if port = 0 then
    match getWebRemotePortDoc doc with
    | none => none
    | some p => some ⟨str "http://localhost:" ++ intToStr p⟩
  else some ⟨str "http://localhost:" ++ intToStr port⟩

/-- The highest integer id among all control-surface lines of a
document, `-1` when there are none (stated from the claim's words, to be
compared with what `SetWebRemotePort`'s scan computes). -/
def specMaxId (L : List Str) : Int := (L.filterMap csurfIdOf).foldl max (-1)

/-- A well-formed record line with volume multiplier `1.0`, for C6's
witness. -/
def c6Line : Str := str "TRACK\t1\tn\t0\t1.0\t0\t0\t0\t0\t0\t0\t0\t0"

/-- The track decoded from `c6Line` (volume `20 * log10 1`). -/
noncomputable def c6Track : Track :=
  { index := 1
    name := str "n"
    volume := .real (20 * Real.logb 10 ((1 : ℚ) : ℝ))
    pan := .finite 0
    mute := false
    solo := false
    recArm := false
    selected := false
    fxEnabled := false }

/-! ## First-match structure of the resolving scan -/

/-- Boolean prefix test versus the propositional prefix order. -/
lemma goHasPfx_eq_true (p s : Str) : goHasPfx p s = true ↔ p <+: s :=
  List.isPrefixOf_iff_prefix

/-- Lines on which the resolving loop continues are skipped. -/
lemma getWebRemoteConfig_append (pre rest : List Str)
    (h : ∀ m ∈ pre, tryResolve m = none) :
    getWebRemoteConfig (pre ++ rest) = getWebRemoteConfig rest := by
  induction pre with
  | nil => rfl
  | cons a pre ih =>
    simp only [List.cons_append, getWebRemoteConfig, h a (by simp)]
    exact ih fun m hm => h m (by simp [hm])

/-- Whatever line the resolving loop returns at, the enabled flag it
reports is the comparison of the line's second whitespace token against
the strings `1` and `true`. -/
lemma tryResolve_enabled (l : Str) (cfg : WebRemoteConfig)
    (h : tryResolve l = some cfg) :
    cfg.enabled = ((goFields cfg.rawConfig).getD 1 [] == str "1"
      || (goFields cfg.rawConfig).getD 1 [] == str "true") := by
  unfold tryResolve at h
  dsimp only at h
  split at h
  · split at h
    · exact absurd h (by simp)
    · split at h
      · split at h
        · exact absurd h (by simp)
        · split at h
          · exact absurd h (by simp)
          · split at h
            · split at h
              · exact absurd h (by simp)
              · cases h; rfl
            · split at h
              · exact absurd h (by simp)
              · cases h; rfl
      · exact absurd h (by simp)
  · exact absurd h (by simp)

/-- Port positions reported by the resolving loop: third token for
SchemaA (`HTTP`), last token for SchemaB (`WEBR`). -/
lemma tryResolve_port (l : Str) (cfg : WebRemoteConfig)
    (h : tryResolve l = some cfg) :
    (goHasPfx (str "HTTP ") cfg.rawConfig = true →
      atoi ((goFields cfg.rawConfig).getD 2 []) = some cfg.port) ∧
    (goHasPfx (str "HTTP ") cfg.rawConfig = false →
      atoi ((goFields cfg.rawConfig).getLast?.getD []) = some cfg.port) := by
  unfold tryResolve at h
  dsimp only at h
  split at h
  · split at h
    · exact absurd h (by simp)
    · split at h
      · split at h
        · exact absurd h (by simp)
        · split at h
          · exact absurd h (by simp)
          · split at h
            · split at h
              · exact absurd h (by simp)
              · cases h
                constructor <;> intro hx <;> simp_all
            · split at h
              · exact absurd h (by simp)
              · cases h
                constructor <;> intro hx <;> simp_all
      · exact absurd h (by simp)
  · exact absurd h (by simp)

/-! ## Claim C2 -/

/-- C2 fails as stated: the flag token `true` also yields
`enabled = true` (the code compares against both `"1"` and `"true"`). -/
theorem c2_counterexample :
    getWebRemoteConfig [str "csurf_0=HTTP true 8080"] =
      some ⟨8080, true, 0, str "HTTP true 8080"⟩ ∧
    (goFields (str "HTTP true 8080")).getD 1 [] ≠ str "1" := by decide

/-- C2 (amended): whenever `GetWebRemoteConfig` resolves an entry, the
reported enabled state is true exactly when the flag token (the second
whitespace token of the entry's value) equals `"1"` or `"true"`; any
other token yields false, under both SchemaA and SchemaB. -/
theorem c2_theorem (doc : List Str) (cfg : WebRemoteConfig)
    (h : getWebRemoteConfig doc = some cfg) :
    cfg.enabled = ((goFields cfg.rawConfig).getD 1 [] == str "1"
      || (goFields cfg.rawConfig).getD 1 [] == str "true") := by
  induction doc with
  | nil => exact absurd h (by simp [getWebRemoteConfig])
  | cons a doc ih =>
    unfold getWebRemoteConfig at h
    split at h
    · cases h
      exact tryResolve_enabled a cfg (by assumption)
    · exact ih h

/-- Witness for C2's theorem at a concrete document. -/
theorem c2_witness :
    (⟨8080, true, 0, str "HTTP true 8080"⟩ : WebRemoteConfig).enabled =
      ((goFields (str "HTTP true 8080")).getD 1 [] == str "1"
        || (goFields (str "HTTP true 8080")).getD 1 [] == str "true") :=
  c2_theorem [str "csurf_0=HTTP true 8080"] ⟨8080, true, 0, str "HTTP true 8080"⟩
    (by decide)

/-! ## Claim C5 -/

/-- C5 fails as stated: the first SchemaA/SchemaB line is skipped, not
returned, when its port token does not parse; here the first line is a
SchemaA (`HTTP`) entry with port token `x`, and `Resolve` returns the
second entry (id 1, port 9000) instead. -/
theorem c5_counterexample :
    goHasPfx (str "HTTP ")
        ((splitOnce '=' (str "csurf_0=HTTP 1 x")).getD ([], [])).2 = true ∧
    getWebRemoteConfig [str "csurf_0=HTTP 1 x", str "csurf_1=WEBR 0 0 9000"] =
      some ⟨9000, false, 1, str "WEBR 0 0 9000"⟩ := by decide

/-- C5 (amended): `Resolve` scans lines in file order and returns the
first SchemaA/SchemaB control-surface line that also decodes (integer id
suffix, at least three whitespace tokens, and a numeric port token);
lines on which decoding fails are skipped.  For a SchemaA entry the port
is the token after the flag (third token of the value), for SchemaB the
last token. -/
theorem c5_theorem (pre post : List Str) (l : Str) (cfg : WebRemoteConfig)
    (hpre : ∀ m ∈ pre, tryResolve m = none)
    (hl : tryResolve l = some cfg) :
    getWebRemoteConfig (pre ++ l :: post) = some cfg ∧
    (goHasPfx (str "HTTP ") cfg.rawConfig = true →
      atoi ((goFields cfg.rawConfig).getD 2 []) = some cfg.port) ∧
    (goHasPfx (str "HTTP ") cfg.rawConfig = false →
      atoi ((goFields cfg.rawConfig).getLast?.getD []) = some cfg.port) := by
  refine ⟨?_, tryResolve_port l cfg hl⟩
  rw [getWebRemoteConfig_append pre _ hpre]
  unfold getWebRemoteConfig
  simp [hl]

/-- Witness for C5's theorem: the specification's own example, a
disabled SchemaB entry on port 9000 followed by an enabled SchemaA entry
on port 8080; the first one wins. -/
theorem c5_witness :
    getWebRemoteConfig
        ([] ++ str "csurf_0=WEBR 0 0 9000" :: [str "csurf_1=HTTP 1 8080"]) =
      some ⟨9000, false, 0, str "WEBR 0 0 9000"⟩ :=
  (c5_theorem [] [str "csurf_1=HTTP 1 8080"] (str "csurf_0=WEBR 0 0 9000")
    ⟨9000, false, 0, str "WEBR 0 0 9000"⟩ (by simp) (by decide)).1

/-! ## Claim C8 -/

/-- C8 fails as stated: HTTP 204 is a 2xx status, yet `GetTracks` maps
it to the status-carrying protocol error (the code succeeds only on
exactly 200). -/
theorem c8_counterexample :
    getTracks (.success 204 (str "")) = .error (.protocolError 204) := rfl

/-- C8 (amended): transport failure maps to the connection error,
distinct from the protocol error; every status other than exactly 200
(including the other 2xx statuses) maps to a protocol error carrying the
status; a status of exactly 200 is a success. -/
theorem c8_theorem :
    getTracks .connFail = .error .connectionError ∧
    (∀ (s : Int) (body : Str), s ≠ 200 →
      getTracks (.success s body) = .error (.protocolError s)) ∧
    (∀ body, getTracks (.success 200 body) =
      .ok (processLines (splitChar '\n' (trimSpace body)))) ∧
    (∀ s : Int, s ≠ 200 → getTracks (.readFail s) = .error (.protocolError s)) := by
  refine ⟨rfl, fun s body hs => ?_, fun body => rfl, fun s hs => ?_⟩
  · simp [getTracks, hs]
  · simp [getTracks, hs]

/-- Witness for C8's theorem at the specification's example status 500. -/
theorem c8_witness :
    getTracks (.success 500 (str "")) = .error (.protocolError 500) :=
  c8_theorem.2.1 500 (str "") (by decide)

/-! ## Claim C9 -/

/-- C9: a non-zero caller-supplied port is used as given; port 0 invokes
the registry resolution, whose failure is surfaced with no default
substituted and whose success supplies the resolved port. -/
theorem c9_theorem (port : Int) (doc : List Str) :
    (port ≠ 0 →
      newWebRemoteClient port doc = some ⟨str "http://localhost:" ++ intToStr port⟩) ∧
    (getWebRemoteConfig doc = none → newWebRemoteClient 0 doc = none) ∧
    (∀ cfg, getWebRemoteConfig doc = some cfg →
      newWebRemoteClient 0 doc = some ⟨str "http://localhost:" ++ intToStr cfg.port⟩) := by
  refine ⟨fun hp => ?_, fun hd => ?_, fun cfg hd => ?_⟩
  · simp [newWebRemoteClient, hp]
  · simp [newWebRemoteClient, getWebRemotePortDoc, hd]
  · simp [newWebRemoteClient, getWebRemotePortDoc, hd]

/-- Witness for C9's theorem: explicit port 8080 is used as-is, and with
port 0 over an empty document the resolution failure is surfaced. -/
theorem c9_witness :
    newWebRemoteClient 8080 [] = some ⟨str "http://localhost:" ++ intToStr 8080⟩ ∧
    newWebRemoteClient 0 [] = none :=
  ⟨(c9_theorem 8080 []).1 (by decide), (c9_theorem 0 []).2.1 (by decide)⟩

/-! ## Claim C10 -/

/-- C10: the track-body parser is total: on every input it returns the
nil-error result with a (possibly empty) track list, so the parsing
stage never produces an error for `GetTracks` to wrap. -/
theorem c10_theorem (data : Str) : ∃ ts, parseTrackData data = Except.ok ts :=
  ⟨processLines (splitChar '\n' (trimSpace data)), rfl⟩

/-! ## Structure of `SetWebRemotePort`'s scan -/

/-- Splitting after an exact first occurrence: `splitOnce` finds the first separator. -/
lemma splitOnce_append (sep : Char) (a b : Str) (ha : sep ∉ a) :
    splitOnce sep (a ++ sep :: b) = some (a, b) := by
  induction a with
  | nil => simp [splitOnce]
  | cons c a ih =>
    have hc : ¬c = sep := by intro h; exact ha (by simp [h])
    rw [List.cons_append]
    rw [splitOnce, if_neg hc, ih (fun h => ha (List.mem_cons_of_mem _ h))]

/-- The `csurf_cnt=` directive has no integer id: its key suffix is
`cnt`. -/
lemma csurfIdOf_of_isCnt (l : Str) (h : isCnt l = true) : csurfIdOf l = none := by
  unfold isCnt goHasPfx at h
  obtain ⟨t, ht⟩ := (goHasPfx_eq_true _ _).mp h
  unfold csurfIdOf
  dsimp only
  rw [← ht]
  have h1 : goHasPfx (str "csurf_") (str "csurf_cnt=" ++ t) = true := by
    unfold goHasPfx
    exact (goHasPfx_eq_true _ _).mpr ⟨str "cnt=" ++ t, by simp [str]⟩
  rw [if_pos h1]
  have h2 : str "csurf_cnt=" ++ t = (str "csurf_cnt") ++ '=' :: t := by simp [str]
  rw [h2, splitOnce_append '=' (str "csurf_cnt") t (by decide)]
  dsimp only
  decide

/-- Value of `maxID` after one scan step. -/
lemma swpScanLine_maxID (i : Nat) (st : SwpScan) (l : Str) :
    (swpScanLine i st l).maxID =
      match csurfIdOf l with
      | some id => max st.maxID id
      | none => st.maxID := by
  unfold swpScanLine
  dsimp only
  cases hcs : csurfIdOf l with
  | none => split <;> rfl
  | some n =>
    have hm : (if n > st.maxID then n else st.maxID) = max st.maxID n := by
      rcases le_or_lt n st.maxID with hle | hlt
      · rw [if_neg (not_lt.mpr hle), max_eq_left hle]
      · rw [if_pos hlt, max_eq_right hlt.le]
    split <;> simp [hm]

/-- Value of `cntIdx` after one scan step. -/
lemma swpScanLine_cntIdx (i : Nat) (st : SwpScan) (l : Str) :
    (swpScanLine i st l).cntIdx = if isCnt l then some i else st.cntIdx := by
  unfold swpScanLine
  dsimp only
  cases csurfIdOf l <;> split <;> rfl

/-- Value of `insertIdx` after one scan step. -/
lemma swpScanLine_insertIdx (i : Nat) (st : SwpScan) (l : Str) :
    (swpScanLine i st l).insertIdx =
      match csurfIdOf l with
      | some _ => some (i + 1)
      | none => st.insertIdx := by
  unfold swpScanLine
  dsimp only
  cases csurfIdOf l <;> split <;> rfl

/-- The scan's running maximum folds `max` over the parsed ids. -/
lemma swpScanFrom_maxID (ls : List Str) : ∀ (i : Nat) (st : SwpScan),
    (swpScanFrom i st ls).maxID =
      ls.foldl (fun m l =>
        match csurfIdOf l with
        | some id => max m id
        | none => m) st.maxID := by
  induction ls with
  | nil => intro i st; rfl
  | cons l ls ih =>
    intro i st
    simp only [swpScanFrom, List.foldl_cons, ih, swpScanLine_maxID]

/-- Folding `max` over a `filterMap` is folding the matched step. -/
lemma foldl_max_filterMap (L : List Str) : ∀ a : Int,
    (L.filterMap csurfIdOf).foldl max a =
      L.foldl (fun m l =>
        match csurfIdOf l with
        | some id => max m id
        | none => m) a := by
  induction L with
  | nil => intro a; rfl
  | cons l L ih =>
    intro a
    cases hcs : csurfIdOf l <;>
      simp [List.filterMap_cons, hcs, ih]

/-- The scan computes exactly the highest control-surface id. -/
lemma swpScan_maxID (L : List Str) : (swpScan L).maxID = specMaxId L := by
  rw [swpScan, swpScanFrom_maxID, specMaxId, foldl_max_filterMap]

/-- Without `csurf_cnt=` lines the scan never records a directive. -/
lemma swpScanFrom_cnt_of_forall (ls : List Str) : ∀ (i : Nat) (st : SwpScan),
    (∀ l ∈ ls, isCnt l = false) →
    (swpScanFrom i st ls).cntIdx = st.cntIdx := by
  induction ls with
  | nil => intro i st _; rfl
  | cons l ls ih =>
    intro i st h
    simp only [swpScanFrom]
    rw [ih _ _ (fun m hm => h m (List.mem_cons_of_mem _ hm)),
      swpScanLine_cntIdx, if_neg (by simp [h l (List.mem_cons_self l ls)])]

/-- A recorded directive index survives the rest of the scan. -/
lemma swpScanFrom_cnt_isSome (ls : List Str) : ∀ (i : Nat) (st : SwpScan),
    st.cntIdx.isSome → ((swpScanFrom i st ls).cntIdx).isSome := by
  induction ls with
  | nil => intro i st h; exact h
  | cons l ls ih =>
    intro i st h
    refine ih _ _ ?_
    rw [swpScanLine_cntIdx]
    split
    · rfl
    · exact h

/-- A present `csurf_cnt=` line is recorded by the scan. -/
lemma swpScanFrom_cnt_present (ls : List Str) : ∀ (i : Nat) (st : SwpScan),
    (∃ l ∈ ls, isCnt l = true) → ((swpScanFrom i st ls).cntIdx).isSome := by
  induction ls with
  | nil => intro i st h; simp at h
  | cons l ls ih =>
    intro i st h
    by_cases hl : isCnt l = true
    · refine swpScanFrom_cnt_isSome ls _ _ ?_
      rw [swpScanLine_cntIdx, if_pos hl]
      rfl
    · obtain ⟨m, hm, hcm⟩ := h
      rcases List.mem_cons.mp hm with rfl | hm'
      · exact absurd hcm hl
      · exact ih _ _ ⟨m, hm', hcm⟩

/-- What a recorded directive index points at: either it was already
recorded, or it is a `csurf_cnt=` line of the scanned segment. -/
lemma swpScanFrom_cnt_spec (ls : List Str) : ∀ (i : Nat) (st : SwpScan) (c : Nat),
    (swpScanFrom i st ls).cntIdx = some c →
    st.cntIdx = some c ∨
      (i ≤ c ∧ ∃ h : c - i < ls.length, isCnt (ls.get ⟨c - i, h⟩) = true) := by
  induction ls with
  | nil => intro i st c h; exact Or.inl h
  | cons l ls ih =>
    intro i st c h
    rcases ih _ _ _ h with h1 | ⟨hic, hlt, hcnt⟩
    · rw [swpScanLine_cntIdx] at h1
      by_cases hl : isCnt l = true
      · rw [if_pos hl] at h1
        injection h1 with h1
        subst h1
        refine Or.inr ⟨le_refl _, ⟨by simp, ?_⟩⟩
        simpa using hl
      · rw [if_neg hl] at h1
        exact Or.inl h1
    · refine Or.inr ⟨by omega, ?_⟩
      have hklt : c - i < (l :: ls).length := by simp; omega
      refine ⟨hklt, ?_⟩
      have hfin : (⟨c - i, hklt⟩ : Fin (l :: ls).length) =
          ⟨(c - (i + 1)) + 1, by simp; omega⟩ := Fin.mk_eq_mk.mpr (by omega)
      rw [hfin]
      simpa using hcnt

/-- The scan's insertion index is bounded by the scanned length. -/
lemma swpScanFrom_insert_bound (ls : List Str) : ∀ (i : Nat) (st : SwpScan),
    (∀ j, st.insertIdx = some j → j ≤ i) →
    ∀ j, (swpScanFrom i st ls).insertIdx = some j → j ≤ i + ls.length := by
  induction ls with
  | nil => intro i st h j hj; simpa using h j hj
  | cons l ls ih =>
    intro i st h j hj
    have := ih (i + 1) (swpScanLine i st l) ?_ j hj
    · simp only [List.length_cons]
      omega
    · intro j' hj'
      rw [swpScanLine_insertIdx] at hj'
      cases hcs : csurfIdOf l <;> rw [hcs] at hj'
      · exact le_trans (h j' hj') (by omega)
      · cases hj'; rfl

/-- The whole scan's insertion index fits in the document. -/
lemma swpScan_insert_le (L : List Str) (i : Nat)
    (h : (swpScan L).insertIdx = some i) : i ≤ L.length := by
  have := swpScanFrom_insert_bound L 0 ⟨-1, none, none⟩
    (by intro j hj; cases hj) i h
  simpa using this

/-- What the whole scan's directive index points at. -/
lemma swpScan_cnt_some (L : List Str) (c : Nat)
    (h : (swpScan L).cntIdx = some c) :
    ∃ hc : c < L.length, isCnt (L.get ⟨c, hc⟩) = true := by
  rcases swpScanFrom_cnt_spec L 0 ⟨-1, none, none⟩ c h with h1 | ⟨-, hlt, hcnt⟩
  · exact absurd h1 (by simp)
  · exact ⟨by simpa using hlt, by simpa using hcnt⟩

/-- Documents without a directive line leave the index unset. -/
lemma swpScan_cnt_none (L : List Str) (h : ∀ l ∈ L, isCnt l = false) :
    (swpScan L).cntIdx = none :=
  swpScanFrom_cnt_of_forall L 0 ⟨-1, none, none⟩ h

/-- A present directive line is always found by the whole scan. -/
lemma swpScan_cnt_isSome (L : List Str) (h : ∃ l ∈ L, isCnt l = true) :
    ((swpScan L).cntIdx).isSome :=
  swpScanFrom_cnt_present L 0 ⟨-1, none, none⟩ h

/-! ## List surgery lemmas -/

/-- Inserting a line adds exactly one line. -/
lemma insertLine_length (i : Nat) (x : Str) (L : List Str) :
    (insertLine i x L).length = L.length + 1 := by
  unfold insertLine
  simp
  omega

/-- The original lines are a sublist of the insertion result. -/
lemma sublist_insertLine (i : Nat) (x : Str) (L : List Str) :
    List.Sublist L (insertLine i x L) := by
  conv_lhs => rw [← List.take_append_drop i L]
  exact (List.sublist_cons_self x (L.drop i)).append_left (L.take i)

/-- The inserted line is present. -/
lemma mem_insertLine (i : Nat) (x : Str) (L : List Str) : x ∈ insertLine i x L := by
  unfold insertLine
  simp

/-- Over in-range indices, `insertLine` is `List.insertIdx`. -/
lemma insertLine_eq_insertIdx (i : Nat) (x : Str) (L : List Str) (hi : i ≤ L.length) :
    insertLine i x L = List.insertIdx i x L := by
  induction L generalizing i with
  | nil =>
    have h0 : i = 0 := by simpa using hi
    subst h0
    rfl
  | cons a L ih =>
    cases i with
    | zero => rfl
    | succ i =>
      have hi2 : i ≤ L.length := by simpa using hi
      simp only [insertLine, List.take_succ_cons, List.drop_succ_cons,
        List.insertIdx_succ_cons, List.cons_append]
      rw [← ih i hi2]
      rfl

/-- Replacing a position whose element fails the filter keeps the
filtered list a sublist of the result. -/
lemma filter_sublist_set (q : Str → Bool) (M : List Str) :
    ∀ (c : Nat) (x : Str), (∀ h : c < M.length, q (M.get ⟨c, h⟩) = false) →
    List.Sublist (M.filter q) (M.set c x) := by
  induction M with
  | nil => intro c x _; simp
  | cons a M ih =>
    intro c x hq
    cases c with
    | zero =>
      have ha : q a = false := by simpa using hq (by simp)
      rw [List.set_cons_zero, List.filter_cons, if_neg (by simp [ha])]
      exact (List.filter_sublist M).trans (List.sublist_cons_self x M)
    | succ c =>
      rw [List.set_cons_succ, List.filter_cons]
      by_cases ha : q a = true
      · rw [if_pos (by simp [ha])]
        exact (ih c x (fun h => by simpa using hq (by simpa using h))).cons₂ a
      · rw [if_neg (by simpa using ha)]
        exact (ih c x (fun h => by simpa using hq (by simpa using h))).cons a

/-- The replacement element is present after `set`. -/
lemma mem_set_self (M : List Str) (c : Nat) (x : Str) (hc : c < M.length) :
    x ∈ M.set c x := by
  have hc2 : c < (M.set c x).length := by simpa using hc
  have hmem := List.get_mem (M.set c x) c hc2
  simp only [List.get_eq_getElem] at hmem
  rwa [List.getElem_set_self _] at hmem

/-- Elements at other positions survive `set`. -/
lemma mem_set_of_ne (M : List Str) (c j : Nat) (x : Str) (hj : j < M.length)
    (hne : c ≠ j) : M.get ⟨j, hj⟩ ∈ M.set c x := by
  have hj2 : j < (M.set c x).length := by simpa using hj
  have hmem := List.get_mem (M.set c x) j hj2
  simp only [List.get_eq_getElem] at hmem ⊢
  rwa [List.getElem_set_ne hne _] at hmem

/-! ## Claim C3 -/

/-- C3 fails as stated: the pre-existing `csurf_cnt=0` line is rewritten
to `csurf_cnt=1` by `SetWebRemotePort`, so not every line present before
the call is still present unmodified. -/
theorem c3_counterexample :
    setWebRemotePort 9000 [str "csurf_0=HTTP 1 8080", str "csurf_cnt=0"] =
      [str "csurf_0=HTTP 1 8080",
        str "csurf_1=HTTP 1 9000 '' 'index.html' 0 ''",
        str "csurf_cnt=1"] ∧
    str "csurf_cnt=0" ∉
      setWebRemotePort 9000 [str "csurf_0=HTTP 1 8080", str "csurf_cnt=0"] := by
  decide

/-- C3 (amended): after `SetWebRemotePort`, every line other than the
`csurf_cnt=` directive is still present, unmodified, in the same
relative order (in particular every `csurf_N` control-surface line); if
a directive line was present, exactly one new line has been inserted
(the directive being rewritten in place); if none was present, two lines
are appended (the new entry and a fresh directive). -/
theorem c3_theorem (L : List Str) (port : Int) :
    List.Sublist (L.filter (fun l => !isCnt l)) (setWebRemotePort port L) ∧
    (∀ l ∈ L, csurfIdOf l ≠ none → l ∈ setWebRemotePort port L) ∧
    ((∃ l ∈ L, isCnt l = true) →
      (setWebRemotePort port L).length = L.length + 1) ∧
    ((∀ l ∈ L, isCnt l = false) →
      (setWebRemotePort port L).length = L.length + 2) := by
  have hq : ∀ l ∈ L, csurfIdOf l ≠ none → (!isCnt l) = true := by
    intro l _ hid
    cases hcnt : isCnt l
    · rfl
    · exact absurd (csurfIdOf_of_isCnt l hcnt) hid
  have hfin : ∀ r : List Str,
      List.Sublist (L.filter (fun l => !isCnt l)) r →
      (∀ l ∈ L, csurfIdOf l ≠ none → l ∈ r) := by
    intro r hsub l hl hid
    exact hsub.subset (List.mem_filter.mpr ⟨hl, hq l hl hid⟩)
  unfold setWebRemotePort
  dsimp only
  rcases hins : (swpScan L).insertIdx with - | i <;>
    rcases hcnt : (swpScan L).cntIdx with - | c <;> dsimp only
  · -- no csurf line, no directive: two lines appended
    refine ⟨?_, ?_, fun hex => ?_, fun hall => by simp⟩
    · exact ((List.filter_sublist L).trans (List.sublist_append_left L _)).trans
        (List.sublist_append_left _ _)
    · exact fun l hl hid => hfin _
        (((List.filter_sublist L).trans (List.sublist_append_left L _)).trans
          (List.sublist_append_left _ _)) l hl hid
    · have := swpScan_cnt_isSome L hex
      rw [hcnt] at this
      simp at this
  · -- no csurf line, directive present: append entry, rewrite directive
    obtain ⟨hcL, hcc⟩ := swpScan_cnt_some L c hcnt
    have hgetc : ∀ h : c < (L ++ [mkCsurfLine ((swpScan L).maxID + 1) port]).length,
        (L ++ [mkCsurfLine ((swpScan L).maxID + 1) port]).get ⟨c, h⟩ =
          L.get ⟨c, hcL⟩ := by
      intro h
      simp only [List.get_eq_getElem]
      exact List.getElem_append_left _
    have hsub : List.Sublist (L.filter (fun l => !isCnt l)) _ :=
      ((List.sublist_append_left L [mkCsurfLine ((swpScan L).maxID + 1) port]).filter
        (fun l => !isCnt l)).trans
        (filter_sublist_set _ _ c (mkCntLine ((swpScan L).maxID + 1))
          (fun h => by rw [hgetc h]; simpa using hcc))
    refine ⟨hsub, hfin _ hsub, fun _ => by simp, fun hall => ?_⟩
    exact absurd (hall _ (List.get_mem L c hcL)) (by simpa using hcc)
  · -- csurf lines present, no directive: insert entry, append directive
    refine ⟨?_, ?_, fun hex => ?_, fun hall => ?_⟩
    · exact ((List.filter_sublist L).trans (sublist_insertLine i _ L)).trans
        (List.sublist_append_left _ _)
    · exact fun l hl hid => hfin _
        (((List.filter_sublist L).trans (sublist_insertLine i _ L)).trans
          (List.sublist_append_left _ _)) l hl hid
    · have := swpScan_cnt_isSome L hex
      rw [hcnt] at this
      simp at this
    · simp [insertLine_length]
  · -- csurf lines present, directive present
    obtain ⟨hcL, hcc⟩ := swpScan_cnt_some L c hcnt
    have hiL : i ≤ L.length := swpScan_insert_le L i hins
    rw [insertLine_eq_insertIdx i _ L hiL]
    have hgetc : ∀ (j : Nat)
        (hj : j < (List.insertIdx i (mkCsurfLine ((swpScan L).maxID + 1) port) L).length),
        j = (if i ≤ c then c + 1 else c) →
        (List.insertIdx i (mkCsurfLine ((swpScan L).maxID + 1) port) L).get ⟨j, hj⟩ =
          L.get ⟨c, hcL⟩ := by
      intro j hj hEq
      by_cases hic : i ≤ c
      · rw [if_pos hic] at hEq
        subst hEq
        obtain ⟨k, rfl⟩ : ∃ k, c = i + k := ⟨c - i, by omega⟩
        exact List.get_insertIdx_add_succ L _ i k hcL hj
      · rw [if_neg hic] at hEq
        subst hEq
        exact List.get_insertIdx_of_lt L _ i _ (by omega) hcL hj
    have hIns : List.Sublist L
        (List.insertIdx i (mkCsurfLine ((swpScan L).maxID + 1) port) L) := by
      rw [← insertLine_eq_insertIdx i _ L hiL]
      exact sublist_insertLine i _ L
    have hsub : List.Sublist (L.filter (fun l => !isCnt l)) _ :=
      (hIns.filter (fun l => !isCnt l)).trans
        (filter_sublist_set _ _ (if i ≤ c then c + 1 else c)
          (mkCntLine ((swpScan L).maxID + 1))
          (fun h => by rw [hgetc _ h rfl, hcc]; rfl))
    refine ⟨hsub, hfin _ hsub, fun _ => ?_, fun hall => ?_⟩
    · rw [List.length_set, List.length_insertIdx _ _ hiL]
    · exact absurd (hall _ (List.get_mem L c hcL)) (by simpa using hcc)

/-- Witness for C3's theorem at a concrete two-line document with a
directive present: one line is inserted, the non-directive line is kept. -/
theorem c3_witness :
    List.Sublist
      (([str "csurf_0=HTTP 1 8080", str "csurf_cnt=0"].filter (fun l => !isCnt l)))
      (setWebRemotePort 9000 [str "csurf_0=HTTP 1 8080", str "csurf_cnt=0"]) ∧
    (setWebRemotePort 9000 [str "csurf_0=HTTP 1 8080", str "csurf_cnt=0"]).length =
      [str "csurf_0=HTTP 1 8080", str "csurf_cnt=0"].length + 1 :=
  ⟨(c3_theorem [str "csurf_0=HTTP 1 8080", str "csurf_cnt=0"] 9000).1,
    (c3_theorem [str "csurf_0=HTTP 1 8080", str "csurf_cnt=0"] 9000).2.2.1
      ⟨str "csurf_cnt=0", by decide⟩⟩

/-! ## Claim C4 -/

/-- C4: the created entry gets id `maxId + 1` where `maxId` is the
highest integer id over all control-surface lines of any kind, and the
`csurf_cnt` directive is set to that new id (appended at the end of the
file when absent). -/
theorem c4_theorem (L : List Str) (port : Int) :
    mkCsurfLine (specMaxId L + 1) port ∈ setWebRemotePort port L ∧
    mkCntLine (specMaxId L + 1) ∈ setWebRemotePort port L ∧
    ((∀ l ∈ L, isCnt l = false) →
      (setWebRemotePort port L).getLast? = some (mkCntLine (specMaxId L + 1))) := by
  have hmax : (swpScan L).maxID = specMaxId L := swpScan_maxID L
  unfold setWebRemotePort
  dsimp only
  rw [hmax]
  rcases hins : (swpScan L).insertIdx with - | i <;>
    rcases hcnt : (swpScan L).cntIdx with - | c <;> dsimp only
  · exact ⟨by simp, by simp, fun _ => List.getLast?_concat _⟩
  · obtain ⟨hcL, hcc⟩ := swpScan_cnt_some L c hcnt
    have hlen : L.length < (L ++ [mkCsurfLine (specMaxId L + 1) port]).length := by
      simp
    have hnew : (L ++ [mkCsurfLine (specMaxId L + 1) port]).get ⟨L.length, hlen⟩ =
        mkCsurfLine (specMaxId L + 1) port := by
      simp only [List.get_eq_getElem]
      rw [List.getElem_append_right (le_refl _)]
      simp
    refine ⟨?_, ?_, fun hall => ?_⟩
    · have := mem_set_of_ne (L ++ [mkCsurfLine (specMaxId L + 1) port]) c L.length
        (mkCntLine (specMaxId L + 1)) hlen (by omega)
      rwa [hnew] at this
    · exact mem_set_self _ c _ (by simp; omega)
    · exact absurd (hall _ (List.get_mem L c hcL)) (by simpa using hcc)
  · refine ⟨?_, by simp, fun _ => List.getLast?_concat _⟩
    exact List.mem_append_left _ (mem_insertLine i _ L)
  · obtain ⟨hcL, hcc⟩ := swpScan_cnt_some L c hcnt
    have hiL : i ≤ L.length := swpScan_insert_le L i hins
    rw [insertLine_eq_insertIdx i _ L hiL]
    have hilen : i < (List.insertIdx i (mkCsurfLine (specMaxId L + 1) port) L).length := by
      rw [List.length_insertIdx _ _ hiL]
      omega
    have hnew : (List.insertIdx i (mkCsurfLine (specMaxId L + 1) port) L).get ⟨i, hilen⟩ =
        mkCsurfLine (specMaxId L + 1) port :=
      List.get_insertIdx_self L _ i hiL hilen
    refine ⟨?_, ?_, fun hall => ?_⟩
    · have := mem_set_of_ne (List.insertIdx i (mkCsurfLine (specMaxId L + 1) port) L)
        (if i ≤ c then c + 1 else c) i (mkCntLine (specMaxId L + 1)) hilen
        (by by_cases hic : i ≤ c <;> simp [hic] <;> omega)
      rwa [hnew] at this
    · refine mem_set_self _ _ _ ?_
      rw [List.length_insertIdx _ _ hiL]
      by_cases hic : i ≤ c <;> simp [hic] <;> omega
    · exact absurd (hall _ (List.get_mem L c hcL)) (by simpa using hcc)

/-- Witness for C4's theorem at the specification's example: existing
ids `{0, 2, 5}` yield a new entry with id `6` and the directive
`csurf_cnt=6`, appended at the end since no directive was present. -/
theorem c4_witness :
    specMaxId [str "csurf_0=FOO 1", str "csurf_2=BAR 1", str "csurf_5=BAZ 1"] = 5 ∧
    mkCsurfLine
        (specMaxId [str "csurf_0=FOO 1", str "csurf_2=BAR 1", str "csurf_5=BAZ 1"] + 1)
        8080 ∈
      setWebRemotePort 8080
        [str "csurf_0=FOO 1", str "csurf_2=BAR 1", str "csurf_5=BAZ 1"] ∧
    (setWebRemotePort 8080
        [str "csurf_0=FOO 1", str "csurf_2=BAR 1", str "csurf_5=BAZ 1"]).getLast? =
      some (mkCntLine
        (specMaxId [str "csurf_0=FOO 1", str "csurf_2=BAR 1", str "csurf_5=BAZ 1"] + 1)) :=
  ⟨by decide,
    (c4_theorem [str "csurf_0=FOO 1", str "csurf_2=BAR 1", str "csurf_5=BAZ 1"] 8080).1,
    (c4_theorem [str "csurf_0=FOO 1", str "csurf_2=BAR 1", str "csurf_5=BAZ 1"] 8080).2.2
      (by decide)⟩

/-! ## Claim C6 -/

/-- C6 fails as stated: `strconv.ParseFloat` accepts the literal `Inf`
with a nil error, the guard `volMult > 0` holds at `+Inf`, and
`20 * math.Log10 (+Inf)` is `+Inf`, so the decoded volume can be
infinite. -/
theorem c6_counterexample :
    (parseTrackData (str "TRACK\t1\tn\t0\tInf\t0\t0\t0\t0\t0\t0\t0\t0")).map
      (fun ts => ts.map Track.volume) = .ok [VolVal.posInf] := rfl

/-- C6 (amended): for every decoded track the volume value is never NaN
and never negative infinity; it is positive infinity exactly when the
multiplier token is a positive-infinity literal; and whenever the
multiplier token parses to a finite value `q`, the volume is
`20 * log10 q` for `q > 0` and the sentinel floor `-150` for `q ≤ 0`. -/
theorem c6_theorem (l : Str) (t : Track) (h : parseLine l = some t) :
    (t.volume ≠ VolVal.nan ∧ t.volume ≠ VolVal.negInf) ∧
    (t.volume = VolVal.posInf →
      parseGoFloat ((splitChar '\t' (trimSpace l)).getD 4 []) = some (.inf false)) ∧
    (∀ q : ℚ,
      parseGoFloat ((splitChar '\t' (trimSpace l)).getD 4 []) = some (.finite q) →
      (0 < q → t.volume = VolVal.real (20 * Real.logb 10 (q : ℝ))) ∧
      (q ≤ 0 → t.volume = VolVal.real (-150))) := by
  unfold parseLine at h
  dsimp only at h
  split at h
  · exact absurd h (by simp)
  · split at h
    · exact absurd h (by simp)
    · split at h
      · exact absurd h (by simp)
      · cases h
        dsimp only
        rcases hm : parseGoFloat ((splitChar '\t' (trimSpace l)).getD 4 []) with - | m
        · refine ⟨⟨by simp, by simp⟩, by simp, fun q hq => ?_⟩
          exact absurd hq (by simp)
        · rcases m with - | neg | q
          · refine ⟨⟨by simp [goPos], by simp [goPos]⟩, by simp [goPos], fun q hq => ?_⟩
            simp at hq
          · cases neg
            · refine ⟨⟨by simp [goPos, goVol20Log10], by simp [goPos, goVol20Log10]⟩,
                fun _ => rfl, fun q hq => ?_⟩
              simp at hq
            · refine ⟨⟨by simp [goPos], by simp [goPos]⟩, by simp [goPos], fun q hq => ?_⟩
              simp at hq
          · dsimp only
            by_cases hq0 : 0 < q
            · have hpos : goPos (.finite q) = true := by simp [goPos, hq0]
              rw [if_pos hpos]
              have hv : goVol20Log10 (.finite q) =
                  VolVal.real (20 * Real.logb 10 (q : ℝ)) := by
                simp only [goVol20Log10]
                rw [if_neg (not_lt.mpr hq0.le), if_neg (ne_of_gt hq0)]
              rw [hv]
              refine ⟨⟨by simp, by simp⟩, by simp, fun q' hq' => ?_⟩
              simp only [Option.some.injEq, GoFloatVal.finite.injEq] at hq'
              subst hq'
              exact ⟨fun _ => rfl, fun hle => absurd hq0 (not_lt.mpr hle)⟩
            · have hpos : goPos (.finite q) = false := by simp [goPos, hq0]
              rw [if_neg (by simp [hpos])]
              refine ⟨⟨by simp, by simp⟩, by simp, fun q' hq' => ?_⟩
              simp only [Option.some.injEq, GoFloatVal.finite.injEq] at hq'
              subst hq'
              exact ⟨fun hlt => absurd hlt hq0, fun _ => rfl⟩

/-- Witness for C6's theorem: at multiplier `1.0` the decoded volume is
`20 * log10 1`, i.e. `0` dB, neither NaN nor an infinity. -/
theorem c6_witness :
    c6Track.volume ≠ VolVal.nan ∧ c6Track.volume ≠ VolVal.negInf ∧
    c6Track.volume = VolVal.real 0 := by
  refine ⟨(c6_theorem c6Line c6Track rfl).1.1, (c6_theorem c6Line c6Track rfl).1.2, ?_⟩
  have h := ((c6_theorem c6Line c6Track rfl).2.2 1 (by decide)).1 (by norm_num)
  rw [h]
  norm_num [Real.logb]

/-! ## Claim C7 -/

/-- C7: a record line with at least 13 tab fields and the `TRACK` tag
whose volume field fails numeric parsing is kept, decoded with the
zero-valued volume; a line with fewer than 13 fields or the wrong tag is
dropped with no error; and the parsing stage as a whole never fails. -/
theorem c7_theorem (l : Str) (rest : List Str) :
    ((splitChar '\t' (trimSpace l)).length ≥ 13 →
      (splitChar '\t' (trimSpace l)).getD 0 [] = str "TRACK" →
      parseGoFloat ((splitChar '\t' (trimSpace l)).getD 4 []) = none →
      processLines (l :: rest) =
        { index := (atoi ((splitChar '\t' (trimSpace l)).getD 1 [])).getD 0
          name := (splitChar '\t' (trimSpace l)).getD 2 []
          volume := VolVal.real 0
          pan := (parseGoFloat ((splitChar '\t' (trimSpace l)).getD 5 [])).getD (.finite 0)
          mute := (splitChar '\t' (trimSpace l)).getD 10 [] == str "1"
          solo := (splitChar '\t' (trimSpace l)).getD 11 [] == str "1"
            || (splitChar '\t' (trimSpace l)).getD 11 [] == str "2"
          recArm := (splitChar '\t' (trimSpace l)).getD 12 [] == str "1"
          selected := false
          fxEnabled := false } :: processLines rest) ∧
    ((splitChar '\t' (trimSpace l)).length < 13 ∨
      (splitChar '\t' (trimSpace l)).getD 0 [] ≠ str "TRACK" →
      processLines (l :: rest) = processLines rest) ∧
    (∀ data, ∃ ts, parseTrackData data = Except.ok ts) := by
  refine ⟨fun h13 hTag hVol => ?_, fun hdrop => ?_, fun data => ⟨_, rfl⟩⟩
  · have hne : trimSpace l ≠ [] := by
      intro he
      rw [he] at h13
      simp [splitChar] at h13
    have hl : parseLine l = some
        { index := (atoi ((splitChar '\t' (trimSpace l)).getD 1 [])).getD 0
          name := (splitChar '\t' (trimSpace l)).getD 2 []
          volume := VolVal.real 0
          pan := (parseGoFloat ((splitChar '\t' (trimSpace l)).getD 5 [])).getD (.finite 0)
          mute := (splitChar '\t' (trimSpace l)).getD 10 [] == str "1"
          solo := (splitChar '\t' (trimSpace l)).getD 11 [] == str "1"
            || (splitChar '\t' (trimSpace l)).getD 11 [] == str "2"
          recArm := (splitChar '\t' (trimSpace l)).getD 12 [] == str "1"
          selected := false
          fxEnabled := false } := by
      unfold parseLine
      dsimp only
      rw [if_neg hne, if_neg (by omega),
        if_neg (by simp only [ne_eq, not_not]; exact hTag), hVol]
    simp only [processLines]
    rw [hl]
  · have hl : parseLine l = none := by
      unfold parseLine
      dsimp only
      by_cases hne : trimSpace l = []
      · rw [if_pos hne]
      · rw [if_neg hne]
        rcases hdrop with h13 | hTag
        · rw [if_pos h13]
        · by_cases h13 : (splitChar '\t' (trimSpace l)).length < 13
          · rw [if_pos h13]
          · rw [if_neg h13, if_pos hTag]
    simp only [processLines]
    rw [hl]

/-- Witness for C7's theorem: the volume field `abc` is non-numeric, the
record is kept with volume `0`. -/
theorem c7_witness :
    processLines [str "TRACK\t1\tName\t0\tabc\t0\t0\t0\t0\t0\t0\t0\t0"] =
      { index := (atoi ((splitChar '\t'
            (trimSpace (str "TRACK\t1\tName\t0\tabc\t0\t0\t0\t0\t0\t0\t0\t0"))).getD 1 [])).getD 0
        name := (splitChar '\t'
            (trimSpace (str "TRACK\t1\tName\t0\tabc\t0\t0\t0\t0\t0\t0\t0\t0"))).getD 2 []
        volume := VolVal.real 0
        pan := (parseGoFloat ((splitChar '\t'
            (trimSpace (str "TRACK\t1\tName\t0\tabc\t0\t0\t0\t0\t0\t0\t0\t0"))).getD 5 [])).getD (.finite 0)
        mute := (splitChar '\t'
            (trimSpace (str "TRACK\t1\tName\t0\tabc\t0\t0\t0\t0\t0\t0\t0\t0"))).getD 10 [] == str "1"
        solo := (splitChar '\t'
            (trimSpace (str "TRACK\t1\tName\t0\tabc\t0\t0\t0\t0\t0\t0\t0\t0"))).getD 11 [] == str "1"
          || (splitChar '\t'
            (trimSpace (str "TRACK\t1\tName\t0\tabc\t0\t0\t0\t0\t0\t0\t0\t0"))).getD 11 [] == str "2"
        recArm := (splitChar '\t'
            (trimSpace (str "TRACK\t1\tName\t0\tabc\t0\t0\t0\t0\t0\t0\t0\t0"))).getD 12 [] == str "1"
        selected := false
        fxEnabled := false } :: processLines [] :=
  (c7_theorem (str "TRACK\t1\tName\t0\tabc\t0\t0\t0\t0\t0\t0\t0\t0") []).1
    (by decide) (by decide) (by decide)

/-! ## Token-level structure of `Fields`, `Join` and `TrimSpace` -/

/-- Reading a whitespace-free token advances the `Fields` worker. -/
lemma goFieldsGo_token (t : Str) : ∀ (cur r : Str),
    (∀ ch ∈ t, isSpace ch = false) →
    goFieldsGo cur (t ++ r) = goFieldsGo (t.reverse ++ cur) r := by
  induction t with
  | nil => intro cur r _; rfl
  | cons c t ih =>
    intro cur r h
    have hc : isSpace c = false := h c (List.mem_cons_self c t)
    rw [List.cons_append]
    rw [show goFieldsGo cur (c :: (t ++ r)) = goFieldsGo (c :: cur) (t ++ r) from by
      simp [goFieldsGo, hc]]
    rw [ih (c :: cur) r (fun ch hch => h ch (List.mem_cons_of_mem _ hch))]
    simp [List.append_assoc]

/-- Round trip: `Fields` of a single-space `Join` of nonempty whitespace-free tokens
recovers exactly the tokens. -/
lemma goFields_joinSpace (ts : List Str)
    (h : ∀ t ∈ ts, t ≠ [] ∧ ∀ ch ∈ t, isSpace ch = false) :
    goFields (joinSpace ts) = ts := by
  induction ts with
  | nil => rfl
  | cons t ts ih =>
    obtain ⟨ht0, hts⟩ := h t (List.mem_cons_self t ts)
    cases ts with
    | nil =>
      show goFieldsGo [] (joinSpace [t]) = [t]
      have hjs : joinSpace [t] = t ++ [] := by simp [joinSpace]
      rw [hjs, goFieldsGo_token t [] [] hts]
      simp only [goFieldsGo, List.append_nil]
      rw [if_neg (by simp [ht0])]
      simp
    | cons u us =>
      show goFieldsGo [] (joinSpace (t :: u :: us)) = t :: u :: us
      have hjs : joinSpace (t :: u :: us) = t ++ ' ' :: joinSpace (u :: us) := rfl
      rw [hjs, goFieldsGo_token t [] _ hts]
      simp only [goFieldsGo, List.append_nil, isSpace]
      rw [if_pos (by decide), if_neg (by simp [ht0]), List.reverse_reverse]
      exact congrArg _ (ih fun m hm => h m (List.mem_cons_of_mem _ hm))

/-- Last character of a single-space `Join` of nonempty whitespace-free
tokens: the last character of the last token, never whitespace. -/
lemma joinSpace_getLast (ts : List Str) (hne : ts ≠ [])
    (h : ∀ t ∈ ts, t ≠ [] ∧ ∀ ch ∈ t, isSpace ch = false) :
    ∃ d, (joinSpace ts).getLast? = some d ∧ isSpace d = false := by
  induction ts with
  | nil => exact absurd rfl hne
  | cons t ts ih =>
    cases ts with
    | nil =>
      obtain ⟨ht0, hts⟩ := h t (List.mem_cons_self t [])
      refine ⟨t.getLast ht0, ?_, ?_⟩
      · exact List.getLast?_eq_getLast_of_ne_nil ht0
      · exact hts _ (List.getLast_mem ht0)
    | cons u us =>
      obtain ⟨d, hd, hds⟩ :=
        ih (by simp) (fun m hm => h m (List.mem_cons_of_mem _ hm))
      refine ⟨d, ?_, hds⟩
      show (t ++ ' ' :: joinSpace (u :: us)).getLast? = some d
      rw [List.getLast?_append_cons]
      cases hJ : joinSpace (u :: us) with
      | nil => rw [hJ] at hd; simp at hd
      | cons v vs =>
        rw [hJ] at hd
        rw [List.getLast?_cons_cons]
        exact hd

/-- A string whose first and last characters are not whitespace is left
unchanged by `TrimSpace`. -/
lemma trimSpace_eq_self (l : Str)
    (h1 : ∀ ch, l.head? = some ch → isSpace ch = false)
    (h2 : ∀ ch, l.getLast? = some ch → isSpace ch = false) :
    trimSpace l = l := by
  cases l with
  | nil => rfl
  | cons a m =>
    have ha : isSpace a = false := h1 a rfl
    unfold trimSpace
    rw [List.dropWhile_cons, if_neg (by simp [ha])]
    cases hrev : (a :: m).reverse with
    | nil => exact absurd hrev (by simp)
    | cons d tail =>
      have hd : (a :: m).getLast? = some d := by
        rw [← List.head?_reverse, hrev]
        rfl
      rw [List.dropWhile_cons, if_neg (by simp [h2 d hd]), ← hrev,
        List.reverse_reverse]

/-! ## First-match structure of the toggling scan -/

/-- A line failing the common condition is passed through by the
toggling loop. -/
lemma tryToggle_none_of_not_web (flag l : Str) (h : isWebCsurfLine l = false) :
    tryToggle flag l = none := by
  unfold isWebCsurfLine at h
  unfold tryToggle
  dsimp only
  by_cases h1 : goHasPfx (str "csurf_") (trimSpace l) = true
  · rw [if_pos h1]
    rw [h1] at h
    simp only [Bool.true_and] at h
    cases hsp : splitOnce '=' (trimSpace l) with
    | none => rfl
    | some kv =>
      obtain ⟨k, v⟩ := kv
      rw [hsp] at h
      dsimp only at h ⊢
      rw [if_neg (by simp [h])]
  · rw [if_neg h1]

/-- A line failing the common condition is skipped by the resolving
loop. -/
lemma tryResolve_none_of_not_web (l : Str) (h : isWebCsurfLine l = false) :
    tryResolve l = none := by
  unfold isWebCsurfLine at h
  unfold tryResolve
  dsimp only
  by_cases h1 : goHasPfx (str "csurf_") (trimSpace l) = true
  · rw [if_pos h1]
    rw [h1] at h
    simp only [Bool.true_and] at h
    cases hsp : splitOnce '=' (trimSpace l) with
    | none => rfl
    | some kv =>
      obtain ⟨k, v⟩ := kv
      rw [hsp] at h
      dsimp only at h ⊢
      rw [if_neg (by simp [h])]
  · rw [if_neg h1]

/-- Lines the toggling loop passes through are preserved in front of the
first modified line. -/
lemma sweGo_append (flag : Str) (pre rest : List Str)
    (h : ∀ m ∈ pre, tryToggle flag m = none) :
    sweGo flag (pre ++ rest) = (sweGo flag rest).map (fun ls => pre ++ ls) := by
  induction pre with
  | nil => simp
  | cons a pre ih =>
    simp only [List.cons_append, sweGo, h a (List.mem_cons_self a pre), List.append_eq]
    rw [ih (fun m hm => h m (List.mem_cons_of_mem _ hm))]
    cases sweGo flag rest <;> simp

/-! ## Claim C1 -/

/-- C1 fails as stated: the rewrite re-tokenises the value and joins the
fields with single spaces, so a SchemaA line whose fields were separated
by double spaces is not byte-for-byte the original with only its flag
token replaced (the replacement would be `csurf_0=HTTP  1  8080`). -/
theorem c1_counterexample :
    setWebRemoteEnabled true [str "csurf_0=HTTP  0  8080"] =
      some [str "csurf_0=HTTP 1 8080"] ∧
    str "csurf_0=HTTP 1 8080" ≠ str "csurf_0=HTTP  1  8080" := by
  decide

/-- C1 (amended): provided the first SchemaA/SchemaB control-surface
line is in canonical form — no surrounding whitespace, whitespace-free
fields separated by single spaces, no `=` inside the key, an integer id
suffix, at least three fields, and a numeric port token at the schema
position — `SetEnabled` rewrites exactly the enabled-flag token of that
line, preserving every other byte, and a subsequent `Resolve` reports
the new enabled state with the same port and field count as before. -/
theorem c1_theorem (pre post : List Str) (key f0 f1 f2 : Str) (rest : List Str)
    (e : Bool) (port cid : Int)
    (hpre : ∀ m ∈ pre, isWebCsurfLine m = false)
    (hkey : goHasPfx (str "csurf_") key = true)
    (hkeyEq : ('=' : Char) ∉ key)
    (hid : atoi (goTrimPfx (str "csurf_") key) = some cid)
    (htok : ∀ t ∈ f0 :: f1 :: f2 :: rest, t ≠ [] ∧ ∀ ch ∈ t, isSpace ch = false)
    (hsch : (f0 = str "HTTP" ∧ atoi f2 = some port) ∨
      (f0 = str "WEBR" ∧ atoi ((f2 :: rest).getLast?.getD []) = some port)) :
    setWebRemoteEnabled e
        (pre ++ (key ++ '=' :: joinSpace (f0 :: f1 :: f2 :: rest)) :: post) =
      some (pre ++ (key ++ '=' ::
        joinSpace (f0 :: (if e then str "1" else str "0") :: f2 :: rest)) :: post) ∧
    getWebRemoteConfig (pre ++ (key ++ '=' ::
        joinSpace (f0 :: (if e then str "1" else str "0") :: f2 :: rest)) :: post) =
      some ⟨port, e, cid,
        joinSpace (f0 :: (if e then str "1" else str "0") :: f2 :: rest)⟩ ∧
    (goFields (joinSpace (f0 :: (if e then str "1" else str "0") :: f2 :: rest))).length =
      (goFields (joinSpace (f0 :: f1 :: f2 :: rest))).length := by
  have hflag : (if e then str "1" else str "0") ≠ [] ∧
      ∀ ch ∈ (if e then str "1" else str "0"), isSpace ch = false := by
    cases e <;> exact ⟨by decide, by decide⟩
  have htok2 : ∀ t ∈ f0 :: (if e then str "1" else str "0") :: f2 :: rest,
      t ≠ [] ∧ ∀ ch ∈ t, isSpace ch = false := by
    intro t ht
    rcases List.mem_cons.mp ht with rfl | ht
    · exact htok t (List.mem_cons_self _ _)
    rcases List.mem_cons.mp ht with rfl | ht
    · exact hflag
    · exact htok t (List.mem_cons_of_mem _ (List.mem_cons_of_mem _ ht))
  obtain ⟨ktail, hkey2⟩ := (goHasPfx_eq_true _ _).mp hkey
  have hkeyhead : ∀ z : Str, (key ++ z).head? = some 'c' := by
    intro z
    rw [← hkey2]
    rfl
  have hcsurf : ∀ z : Str, goHasPfx (str "csurf_") (key ++ z) = true := by
    intro z
    exact (goHasPfx_eq_true _ _).mpr
      (((goHasPfx_eq_true _ _).mp hkey).trans (List.prefix_append key z))
  have htrim : ∀ ts : List Str, ts ≠ [] →
      (∀ t ∈ ts, t ≠ [] ∧ ∀ ch ∈ t, isSpace ch = false) →
      trimSpace (key ++ '=' :: joinSpace ts) = key ++ '=' :: joinSpace ts := by
    intro ts hne hts
    obtain ⟨d, hd, hds⟩ := joinSpace_getLast ts hne hts
    refine trimSpace_eq_self _ (fun ch hch => ?_) (fun ch hch => ?_)
    · rw [hkeyhead ('=' :: joinSpace ts)] at hch
      obtain rfl : 'c' = ch := Option.some.inj hch
      decide
    · rw [List.getLast?_append_cons] at hch
      cases hJ : joinSpace ts with
      | nil => rw [hJ] at hd; simp at hd
      | cons v vs =>
        rw [hJ] at hch hd
        rw [List.getLast?_cons_cons] at hch
        rw [hch] at hd
        obtain rfl : ch = d := Option.some.inj hd
        exact hds
  have hWordPfx : ∀ (w x : Str) (xs : List Str),
      goHasPfx (w ++ [' ']) (joinSpace (w :: x :: xs)) = true := by
    intro w x xs
    show (w ++ [' ']).isPrefixOf (w ++ ' ' :: joinSpace (x :: xs)) = true
    exact (goHasPfx_eq_true _ _).mpr ⟨joinSpace (x :: xs), by simp⟩
  have hnotHTTP : ∀ (x : Str) (xs : List Str),
      goHasPfx (str "HTTP ") (joinSpace (str "WEBR" :: x :: xs)) = false :=
    fun x xs => rfl
  have htogg : tryToggle (if e then str "1" else str "0")
      (key ++ '=' :: joinSpace (f0 :: f1 :: f2 :: rest)) =
      some (key ++ '=' ::
        joinSpace (f0 :: (if e then str "1" else str "0") :: f2 :: rest)) := by
    unfold tryToggle
    dsimp only
    rw [htrim _ (by simp) htok, if_pos (hcsurf _),
      splitOnce_append '=' key (joinSpace (f0 :: f1 :: f2 :: rest)) hkeyEq]
    dsimp only
    have hor : (goHasPfx (str "HTTP ") (joinSpace (f0 :: f1 :: f2 :: rest)) ||
        goHasPfx (str "WEBR ") (joinSpace (f0 :: f1 :: f2 :: rest))) = true := by
      rw [Bool.or_eq_true]
      rcases hsch with ⟨hf0, -⟩ | ⟨hf0, -⟩ <;> subst hf0
      · exact Or.inl (hWordPfx (str "HTTP") f1 (f2 :: rest))
      · exact Or.inr (hWordPfx (str "WEBR") f1 (f2 :: rest))
    rw [if_pos hor, goFields_joinSpace _ htok,
      if_pos (by simp only [List.length_cons]; omega)]
    rfl
  have hres : tryResolve (key ++ '=' ::
      joinSpace (f0 :: (if e then str "1" else str "0") :: f2 :: rest)) =
      some ⟨port, e, cid,
        joinSpace (f0 :: (if e then str "1" else str "0") :: f2 :: rest)⟩ := by
    unfold tryResolve
    dsimp only
    rw [htrim _ (by simp) htok2, if_pos (hcsurf _),
      splitOnce_append '=' key _ hkeyEq]
    dsimp only
    rcases hsch with ⟨hf0, hport⟩ | ⟨hf0, hport⟩ <;> subst hf0
    · have hor2 : (goHasPfx (str "HTTP ")
          (joinSpace (str "HTTP" :: (if e then str "1" else str "0") :: f2 :: rest)) ||
          goHasPfx (str "WEBR ")
          (joinSpace (str "HTTP" :: (if e then str "1" else str "0") :: f2 :: rest))) = true := by
        rw [Bool.or_eq_true]
        exact Or.inl (hWordPfx (str "HTTP") _ _)
      rw [if_pos hor2, hid]
      dsimp only
      have hH : goHasPfx (str "HTTP ")
          (joinSpace (str "HTTP" :: (if e then str "1" else str "0") :: f2 :: rest)) =
          true := hWordPfx (str "HTTP") _ _
      rw [goFields_joinSpace _ htok2,
        if_neg (by simp only [List.length_cons]; omega),
        if_pos hH]
      simp only [List.getD_cons_succ, List.getD_cons_zero]
      rw [hport]
      cases e <;> rfl
    · have hor2 : (goHasPfx (str "HTTP ")
          (joinSpace (str "WEBR" :: (if e then str "1" else str "0") :: f2 :: rest)) ||
          goHasPfx (str "WEBR ")
          (joinSpace (str "WEBR" :: (if e then str "1" else str "0") :: f2 :: rest))) = true := by
        rw [Bool.or_eq_true]
        exact Or.inr (hWordPfx (str "WEBR") _ _)
      rw [if_pos hor2, hid]
      dsimp only
      rw [goFields_joinSpace _ htok2,
        if_neg (by simp only [List.length_cons]; omega),
        if_neg (by simp [hnotHTTP])]
      rw [List.getLast?_cons_cons, List.getLast?_cons_cons, hport]
      cases e <;> rfl
  refine ⟨?_, ?_, ?_⟩
  · unfold setWebRemoteEnabled
    rw [sweGo_append _ pre _ (fun m hm => tryToggle_none_of_not_web _ m (hpre m hm))]
    simp only [sweGo]
    rw [htogg]
    rfl
  · rw [getWebRemoteConfig_append pre _
      (fun m hm => tryResolve_none_of_not_web m (hpre m hm))]
    simp only [getWebRemoteConfig]
    rw [hres]
  · rw [goFields_joinSpace _ htok2, goFields_joinSpace _ htok]
    simp

/-- Witness for C1's theorem: enabling a canonical disabled SchemaA line
between two unrelated lines rewrites only the flag token, and `Resolve`
then reports enabled with the same port 8080 and three fields. -/
theorem c1_witness :
    setWebRemoteEnabled true [str "x=1", str "csurf_0=HTTP 0 8080", str "y=2"] =
      some [str "x=1", str "csurf_0=HTTP 1 8080", str "y=2"] ∧
    getWebRemoteConfig [str "x=1", str "csurf_0=HTTP 1 8080", str "y=2"] =
      some ⟨8080, true, 0, str "HTTP 1 8080"⟩ ∧
    (goFields (str "HTTP 1 8080")).length = (goFields (str "HTTP 0 8080")).length :=
  c1_theorem [str "x=1"] [str "y=2"] (str "csurf_0") (str "HTTP") (str "0")
    (str "8080") [] true 8080 0 (by decide) (by decide) (by decide) (by decide)
    (by decide) (Or.inl ⟨rfl, by decide⟩)

end DR
